import Mathlib

/-!
Shallow embedding of the Telegram download bot (`src/bot.py`).

The pure cores of the three components are translated directly from the
source: the formatting helpers (`format_size`, `escape_markdown_v2`), the
button-building logic of `url_handler` (the Link Handler), and the
token-parsing / selector-building / cleanup logic of
`download_button_callback` (the Selection Handler).

Modelling conventions:
* Python dictionaries from the extraction service become structures with
  `Option`-valued fields (`none` = key absent).
* Byte counts and heights are `Nat`.
* `math.floor(math.log(n, 1024))` is modelled as the exact integer
  floor-logarithm (`floorLog1024`).  For every `n` in the range where the
  unit table lookup succeeds (`n < 1024 ^ 4`) the double-precision
  computation of the source agrees with the exact value, since `log n`
  only lands on the wrong side of an integer for `n` within relative
  distance `~1e-13` of a power of 1024, and no such `n < 1024 ^ 4` other
  than the exact powers exists; at the exact powers the computed ratio is
  exact.
* The out-of-range unit-table lookup (`size_name[i]` with `i ≥ 4`, an
  `IndexError` in Python) is modelled by returning `none`.
* `round(x, 2)` on the exact dyadic values arising here is
  round-half-to-even at two decimals, and `str` of the result prints the
  decimal with trailing zeros trimmed but at least one fractional digit;
  both are modelled exactly over `Nat`.
* The filesystem is a list of paths; `os.path.exists` is membership and
  `os.remove` removes the path.
-/

/-! ### Python-style string primitives -/

/-- Python `str.split(sep)` on a single-character separator, over the
character list of the string: `"".split(c) = [""]`, and each occurrence of
`c` closes the current field. -/
def splitChar (sep : Char) : List Char → List (List Char)
  | [] => [[]]
  | c :: cs =>
    let r := splitChar sep cs
    if c = sep then [] :: r
    else
      match r with
      | [] => [[c]]
      | g :: gs => (c :: g) :: gs

/-- The split `s.split(sep)` returning strings, as used on the callback token. -/
def pySplit (s : String) (sep : Char) : List String :=
  (splitChar sep s.data).map String.mk

/-- Python's `needle in hay` substring test. -/
def strContains (hay needle : String) : Bool :=
  decide (needle.data <:+: hay.data)

/-- Python's `str.lower`, character by character. -/
def pyLower (s : String) : String :=
  String.mk (s.data.map Char.toLower)

/-- Predicate: `s` ends with `suf` (stated over the character lists). -/
def strEndsWith (s suf : String) : Prop :=
  suf.data <:+ s.data

instance (s suf : String) : Decidable (strEndsWith s suf) := by
  unfold strEndsWith; infer_instance

/-- Python truthiness of an optional string (`None` and `""` are falsy). -/
def pyTruthy : Option String → Bool
  | none => false
  | some s => s ≠ ""

/-- Rendering of an optional value inside an f-string (`None` prints as
`"None"`). -/
def pyStrOpt : Option String → String
  | none => "None"
  | some s => s

/-- Python's `a or b` on optional byte counts (`None` and `0` are falsy). -/
def pyOr (a b : Option Nat) : Option Nat :=
  match a with
  | none => b
  | some 0 => b
  | some n => some n

/-! ### `format_size` (src/bot.py lines 26-34) -/

/-- Fuel-driven floor logarithm base 1024; with fuel `≥ n` it computes
`⌊log₁₀₂₄ n⌋` (and `0` on `n = 0`). -/
def floorLog1024Aux : Nat → Nat → Nat
  | 0, _ => 0
  | fuel + 1, n => if 1024 ≤ n then floorLog1024Aux fuel (n / 1024) + 1 else 0

/-- The index `int(math.floor(math.log(n, 1024)))` of the source, as the exact
integer floor logarithm (see the header comment for why the float
computation agrees on the whole in-bounds range). -/
def floorLog1024 (n : Nat) : Nat :=
  floorLog1024Aux n n

/-- Python `round(num / den, 2)` for the exact dyadic quotients arising in
`format_size`, returned in hundredths: round half to even. -/
def roundHalfEven2 (num100 den : Nat) : Nat :=
  let q := num100 / den
  let r := num100 % den
  if 2 * r < den then q
  else if den < 2 * r then q + 1
  else if q % 2 = 0 then q else q + 1

/-- Python's `str` of the rounded float whose exact value is `k/100`
(trailing zeros trimmed, at least one fractional digit). -/
def renderFloat2 (k : Nat) : String :=
  let ip := k / 100
  let fr := k % 100
  if fr = 0 then toString ip ++ ".0"
  else if fr % 10 = 0 then toString ip ++ "." ++ toString (fr / 10)
  else if fr < 10 then toString ip ++ ".0" ++ toString fr
  else toString ip ++ "." ++ toString fr

/-- The unit table `("B", "KB", "MB", "GB")` of the source. -/
def size_name : List String := ["B", "KB", "MB", "GB"]

/-- Function `format_size` from src/bot.py lines 26-34.  `none` input models
`size_bytes is None`; the result is `none` exactly when the
`size_name[i]` lookup would raise `IndexError`. -/
def format_size (size_bytes : Option Nat) : Option String :=
  match size_bytes with
  | none => some ""
  | some 0 => some ""
  | some n =>
    let i := floorLog1024 n
    if h : i < size_name.length then
      let p := 1024 ^ i
      let s := renderFloat2 (roundHalfEven2 (n * 100) p)
      some ("(" ++ s ++ " " ++ size_name.get ⟨i, h⟩ ++ ")")
    else
      none

/-- The unit actually rendered for a positive byte count `n` (defaulting to
`""` out of range, where `format_size` faults instead). -/
def sizeUnit (n : Nat) : String :=
  size_name.getD (floorLog1024 n) ""

/-! ### `escape_markdown_v2` (src/bot.py lines 36-39) -/

/-- The fixed punctuation set of the source. -/
def escape_chars : String := "_*[]()~`>#+-=|\x7b\x7d.!"

/-- Function `escape_markdown_v2` from src/bot.py lines 36-39: the join of the
per-character generator. -/
def escape_markdown_v2 (text : String) : String :=
  String.join (text.data.map fun c =>
    if escape_chars.data.contains c then String.mk ['\\', c] else String.mk [c])

/-- The per-character expansion of the escaper, over character lists. -/
def escList (l : List Char) : List Char :=
  l.flatMap fun c => if escape_chars.data.contains c then ['\\', c] else [c]

/-- Inverse transform: drop an escape marker standing directly before a
character of the punctuation set. -/
def unescapeMarkdownV2 : List Char → List Char
  | [] => []
  | [c] => [c]
  | c :: d :: ds =>
    if c = '\\' ∧ escape_chars.data.contains d then d :: unescapeMarkdownV2 ds
    else c :: unescapeMarkdownV2 (d :: ds)

/-! ### Format descriptors and the Link Handler (src/bot.py lines 51-114) -/

/-- One entry of `info_dict['formats']` with the keys the handler reads
(`none` = key absent).  `format_id` is assumed present, as the source
indexes it unconditionally. -/
structure FormatDescriptor where
  vcodec : Option String := none
  acodec : Option String := none
  ext : Option String := none
  height : Option Nat := none
  filesize : Option Nat := none
  filesize_approx : Option Nat := none
  format_id : String := ""
deriving DecidableEq

/-- The metadata dictionary returned by `extract_info`. -/
structure InfoDict where
  title : Option String := none
  thumbnail : Option String := none
  id : Option String := none
  formats : List FormatDescriptor := []
deriving DecidableEq

structure InlineKeyboardButton where
  text : String
  callback_data : String
deriving DecidableEq

/-- The video filter of line 71: `f.get('vcodec') != 'none' and
f.get('ext') == 'mp4' and f.get('height')` (the last test is Python
truthiness: present and nonzero). -/
def videoFilter (f : FormatDescriptor) : Bool :=
  (f.vcodec != some "none") && (f.ext == some "mp4") &&
    (match f.height with
     | some h => h != 0
     | none => false)

/-- The sort key of line 72: `x.get('height', 0)`. -/
def heightKey (f : FormatDescriptor) : Nat :=
  f.height.getD 0

/-- Stable insertion (descending by `heightKey`): an element passes over
strictly larger keys and stops before the first key `≤` its own, so
elements with equal keys keep their original relative order — the
guarantee of Python's `sorted(..., reverse=True)`. -/
def insertDesc (f : FormatDescriptor) : List FormatDescriptor → List FormatDescriptor
  | [] => [f]
  | g :: gs => if heightKey f < heightKey g then g :: insertDesc f gs else f :: g :: gs

/-- The call `sorted(..., key=lambda x: x.get('height', 0), reverse=True)` of
line 70-74 as a stable descending insertion sort. -/
def sortDesc : List FormatDescriptor → List FormatDescriptor
  | [] => []
  | f :: fs => insertDesc f (sortDesc fs)

/-- The deduplication loop of lines 76-82: walk the sorted list keeping a
set of already-added heights, and emit `(height, format)` for each format
whose (truthy) height is new. -/
def dedupRows : List FormatDescriptor → List Nat → List (Nat × FormatDescriptor)
  | [], _ => []
  | f :: fs, seen =>
    match f.height with
    | some h =>
      if h ≠ 0 ∧ h ∉ seen then (h, f) :: dedupRows fs (h :: seen)
      else dedupRows fs seen
    | none => dedupRows fs seen

/-- The `(height, format)` pairs for which video buttons are rendered, in
button order. -/
def videoSelections (formats : List FormatDescriptor) : List (Nat × FormatDescriptor) :=
  dedupRows (sortDesc (formats.filter videoFilter)) []

/-- The audio predicate of line 85: `f.get('acodec') != 'none' and
f.get('vcodec') == 'none' and f.get('ext') in ['m4a', 'webm', 'mp3']`. -/
def audioPred (f : FormatDescriptor) : Bool :=
  (f.acodec != some "none") && (f.vcodec == some "none") &&
    (match f.ext with
     | some e => e == "m4a" || e == "webm" || e == "mp3"
     | none => false)

/-- The search `next((f for f in reversed(formats) if ...), None)` of line 85. -/
def best_audio (formats : List FormatDescriptor) : Option FormatDescriptor :=
  formats.reverse.find? audioPred

/-- One video button (line 82).  `none` models the `IndexError` that
`format_size` raises on an out-of-range byte count. -/
def videoButton (video_id : Option String) (h : Nat) (f : FormatDescriptor) :
    Option InlineKeyboardButton :=
  (format_size (pyOr f.filesize f.filesize_approx)).map fun sz =>
    { text := "🎬 " ++ toString h ++ "p " ++ sz
      callback_data := "video:" ++ pyStrOpt video_id ++ ":" ++ toString h }

/-- The audio button (line 88). -/
def audioButton (video_id : Option String) (f : FormatDescriptor) :
    Option InlineKeyboardButton :=
  (format_size (pyOr f.filesize f.filesize_approx)).map fun sz =>
    { text := "🎵 Audio " ++ sz
      callback_data := "audio:" ++ pyStrOpt video_id ++ ":" ++ f.format_id }

/-- The video rows of the keyboard, one button per row in the source; a
faulting `format_size` aborts the whole handler body. -/
def videoRows (video_id : Option String) (formats : List FormatDescriptor) :
    Option (List InlineKeyboardButton) :=
  (videoSelections formats).mapM fun p => videoButton video_id p.1 p.2

/-- The audio row of the keyboard (lines 85-88). -/
def audioRows (video_id : Option String) (formats : List FormatDescriptor) :
    Option (List InlineKeyboardButton) :=
  match best_audio formats with
  | none => some []
  | some f => (audioButton video_id f).map fun b => [b]

/-- The full `keyboard` list of lines 67-88 (each button is one row). -/
def keyboard (video_id : Option String) (formats : List FormatDescriptor) :
    Option (List InlineKeyboardButton) := do
  let v ← videoRows video_id formats
  let a ← audioRows video_id formats
  pure (v ++ a)

/-- Outcome of `ydl.extract_info` as seen by the handler's `try`:
success, a structured `DownloadError` carrying its message, or any other
exception. -/
inductive ExtractResult where
  | ok (info : InfoDict)
  | downloadError (msg : String)
  | genericError
deriving DecidableEq

/-- One user-visible action taken by the Link Handler after it has sent
the placeholder message. -/
inductive UrlAction where
  | editPlaceholder (text : String)
  | deletePlaceholder
  | sendPhoto (thumb : String) (caption : String) (kb : List InlineKeyboardButton)
  | sendText (caption : String) (kb : List InlineKeyboardButton)
deriving DecidableEq

/-- Result of a Link Handler run: the `user_data['video_title']` write (if
any) and the ordered actions after the placeholder send. -/
structure UrlOutcome where
  video_title : Option String
  actions : List UrlAction
deriving DecidableEq

def msgNoFormats : String := "Sorry, no suitable download formats were found."
def msgUnavailable : String := "❌ Failed: This video is private, has been deleted, or is unavailable."
def msgInvalidUrl : String := "❌ This doesn't look like a valid link. Please try again."
def msgOtherDl : String := "❌ Failed to process the link. The video may be region-locked or unsupported."
def msgUnexpected : String := "❌ An unexpected error occurred. Please try again later."

/-- The `DownloadError` classifier of lines 105-111. -/
def classifyDownloadError (e : String) : String :=
  let s := pyLower e
  if strContains s "video unavailable" || strContains s "private video" then msgUnavailable
  else if strContains s "is not a valid url" then msgInvalidUrl
  else msgOtherDl

/-- The pure core of `url_handler` (lines 56-114), as a function of the
extraction outcome.  Note the title is written to session state on line 62,
before the keyboard is built; a `format_size` fault inside the keyboard
build is caught by the generic `except` of line 112. -/
def url_handler (res : ExtractResult) : UrlOutcome :=
  match res with
  | .downloadError e => ⟨none, [.editPlaceholder (classifyDownloadError e)]⟩
  | .genericError => ⟨none, [.editPlaceholder msgUnexpected]⟩
  | .ok info =>
    let title := info.title.getD "No Title"
    match keyboard info.id info.formats with
    | none => ⟨some title, [.editPlaceholder msgUnexpected]⟩
    | some kb =>
      if kb.isEmpty then ⟨some title, [.editPlaceholder msgNoFormats]⟩
      else
        let caption := "*" ++ escape_markdown_v2 title ++ "*"
        if pyTruthy info.thumbnail then
          ⟨some title, [.deletePlaceholder, .sendPhoto (info.thumbnail.getD "") caption kb]⟩
        else
          ⟨some title, [.deletePlaceholder, .sendText caption kb]⟩

/-! ### The Selection Handler (src/bot.py lines 117-174) -/

/-- The token parse, path computation and selector construction of
lines 122-135: `none` models the `ValueError` from unpacking a split that
does not have exactly three fields.  Returns
`(file_path, url, download_format)`. -/
def download_button_callback_plan (from_user_id : Nat) (data : String) :
    Option (String × String × String) :=
  match pySplit data ':' with
  | [download_type, video_id, quality_or_id] =>
    let url := "https://www.youtube.com/watch?v=" ++ video_id
    let file_path := toString from_user_id ++ "_" ++ video_id ++ "." ++
      (if download_type == "audio" then "m4a" else "mp4")
    let download_format :=
      if download_type == "video" then
        "bestvideo[height<=" ++ quality_or_id ++ "][ext=mp4]+bestaudio[ext=m4a]/best[height<=" ++
          quality_or_id ++ "][ext=mp4]/best"
      else quality_or_id
    some (file_path, url, download_format)
  | _ => none

/-- Terminal state of one Selection Handler run that reached the download
attempt (the `try` of line 145). -/
inductive SelOutcome where
  | success
  | downloadFailed
  | fileMissing
  | uploadFailed
deriving DecidableEq

/-- The `finally` block of lines 171-174: remove the file if it exists. -/
def cleanup (fs : List String) (file_path : String) : List String :=
  if file_path ∈ fs then fs.filter (fun q => q ≠ file_path) else fs

/-- The `try`/`except`/`finally` of lines 145-174 over an abstract
filesystem.  `download` is the effect of `ydl.download` (the new
filesystem and whether it succeeded without `DownloadError`); a missing
file at `open` or a failing send lands in the generic `except`; every
branch falls through to `cleanup`. -/
def selectionRun (download : List String → List String × Bool) (uploadOk : Bool)
    (file_path : String) (fs0 : List String) : List String × SelOutcome :=
  let step := download fs0
  let fs1 := step.1
  let out :=
    if step.2 then
      if file_path ∈ fs1 then
        if uploadOk then SelOutcome.success else SelOutcome.uploadFailed
      else SelOutcome.fileMissing
    else SelOutcome.downloadFailed
  (cleanup fs1 file_path, out)

/-! ### Concrete sample data used by witnesses and counterexamples -/

/-- An extraction result with a title and an empty format list: it
produces no buttons. -/
def infoNoButtons : InfoDict :=
  { title := some "T", thumbnail := none, id := some "abc", formats := [] }

def fmtV22 : FormatDescriptor :=
  { vcodec := some "avc1", ext := some "mp4", height := some 720, format_id := "22" }

def fmtV23 : FormatDescriptor :=
  { vcodec := some "avc1", ext := some "mp4", height := some 720, format_id := "23" }

def fmtV37 : FormatDescriptor :=
  { vcodec := some "avc1", ext := some "mp4", height := some 1080, format_id := "37" }

def fmtA140 : FormatDescriptor :=
  { acodec := some "mp4a.40.2", vcodec := some "none", ext := some "m4a", format_id := "140" }

def fmtsSample : List FormatDescriptor := [fmtV22, fmtV23, fmtV37, fmtA140]

/-! ### Arithmetic facts about the magnitude index -/

theorem floorLog1024Aux_lt {fuel n k : Nat} (hf : n ≤ fuel) (hk : 0 < k) (h : n < 1024 ^ k) :
    floorLog1024Aux fuel n < k := by
  induction fuel generalizing n k with
  | zero => simpa [floorLog1024Aux] using hk
  | succ fuel ih =>
    rw [floorLog1024Aux]
    split
    · rename_i hge
      have hn0 : 0 < n := lt_of_lt_of_le (by norm_num) hge
      have hfuel : n / 1024 ≤ fuel := by
        have := Nat.div_lt_self hn0 (by norm_num : 1 < 1024)
        omega
      have hk2 : 2 ≤ k := by
        rcases Nat.lt_or_ge k 2 with h2 | h2
        · interval_cases k
          simp only [pow_one] at h
          omega
        · exact h2
      have hdiv : n / 1024 < 1024 ^ (k - 1) := by
        rw [Nat.div_lt_iff_lt_mul (by norm_num : 0 < 1024)]
        calc n < 1024 ^ k := h
          _ = 1024 ^ (k - 1) * 1024 := by
              rw [← pow_succ]
              congr 1
              omega
      have := ih hfuel (by omega : 0 < k - 1) hdiv
      omega
    · exact hk

theorem floorLog1024Aux_ge {fuel n k : Nat} (hf : n ≤ fuel) (h : 1024 ^ k ≤ n) :
    k ≤ floorLog1024Aux fuel n := by
  induction fuel generalizing n k with
  | zero =>
    have hp : (0:Nat) < 1024 ^ k := pow_pos (by norm_num) k
    omega
  | succ fuel ih =>
    rw [floorLog1024Aux]
    cases k with
    | zero => simp
    | succ j =>
      have hge : 1024 ≤ n := by
        have h1 : (1024:Nat) ^ 1 ≤ 1024 ^ (j + 1) := Nat.pow_le_pow_right (by norm_num) (by omega)
        simp only [pow_one] at h1
        omega
      rw [if_pos hge]
      have hn0 : 0 < n := by omega
      have hfuel : n / 1024 ≤ fuel := by
        have := Nat.div_lt_self hn0 (by norm_num : 1 < 1024)
        omega
      have hdiv : 1024 ^ j ≤ n / 1024 := by
        rw [Nat.le_div_iff_mul_le (by norm_num : 0 < 1024)]
        calc 1024 ^ j * 1024 = 1024 ^ (j + 1) := (pow_succ 1024 j).symm
          _ ≤ n := h
      have := ih hfuel hdiv
      omega

/-- A string of the shape `p ++ u ++ c` ends with `u ++ c`. -/
theorem strEndsWith_unit (p u c : String) : strEndsWith (p ++ u ++ c) (u ++ c) := by
  unfold strEndsWith
  rw [String.append_assoc, String.data_append]
  exact List.suffix_append _ _

/-! ### Claim C4 -/

/-- C4 (amended): the claim as stated is false — the rendered string ends
in the closing parenthesis, not in the bare unit, and for byte counts
`≥ 1024 ^ 4` the unit lookup faults instead of returning a string.  This
counterexample shows both: `format_size` at `1` yields `"(1.0 B)"`, which
ends in none of `B`/`KB`/`MB`/`GB`, and at `1024 ^ 4` yields no string at
all. -/
theorem format_size_claim_false :
    (format_size (some 1) = some "(1.0 B)" ∧
      ¬ strEndsWith "(1.0 B)" "B" ∧ ¬ strEndsWith "(1.0 B)" "KB" ∧
      ¬ strEndsWith "(1.0 B)" "MB" ∧ ¬ strEndsWith "(1.0 B)" "GB") ∧
    format_size (some (1024 ^ 4)) = none :=
  ⟨⟨by decide, by decide, by decide, by decide, by decide⟩, by decide⟩

/-- C4 (amended claim): for input `none` or `0` the formatter returns the
empty string; for every byte count `n` with `1 ≤ n < 1024 ^ 4` it returns
the string `"(v u)"` where `v` renders `n / 1024 ^ i` rounded half-even to
two decimals, `i = ⌊log₁₀₂₄ n⌋` is the magnitude index, and the unit `u`
is the entry of the table `B/KB/MB/GB` at index `i`; the returned string
ends in that unit followed by the closing parenthesis. -/
theorem format_size_positive_spec :
    format_size none = some "" ∧ format_size (some 0) = some "" ∧
    ∀ n : Nat, 1 ≤ n → n < 1024 ^ 4 →
      format_size (some n) =
        some ("(" ++ renderFloat2 (roundHalfEven2 (n * 100) (1024 ^ floorLog1024 n)) ++ " " ++
          sizeUnit n ++ ")") ∧
      (sizeUnit n = "B" ∨ sizeUnit n = "KB" ∨ sizeUnit n = "MB" ∨ sizeUnit n = "GB") ∧
      size_name.get? (floorLog1024 n) = some (sizeUnit n) ∧
      strEndsWith ("(" ++ renderFloat2 (roundHalfEven2 (n * 100) (1024 ^ floorLog1024 n)) ++ " " ++
          sizeUnit n ++ ")") (sizeUnit n ++ ")") := by
  refine ⟨rfl, rfl, ?_⟩
  intro n h1 h2
  have hi4 : floorLog1024 n < 4 := floorLog1024Aux_lt le_rfl (by norm_num) h2
  obtain ⟨m, rfl⟩ : ∃ m, n = m + 1 := ⟨n - 1, by omega⟩
  refine ⟨?_, ?_, ?_, strEndsWith_unit _ _ _⟩
  · have hred : format_size (some (m + 1)) =
        if h : floorLog1024 (m + 1) < size_name.length then
          some ("(" ++ renderFloat2 (roundHalfEven2 ((m + 1) * 100) (1024 ^ floorLog1024 (m + 1))) ++
            " " ++ size_name.get ⟨floorLog1024 (m + 1), h⟩ ++ ")")
        else none := rfl
    have hlen : floorLog1024 (m + 1) < size_name.length := by
      simpa [size_name] using hi4
    rw [hred, dif_pos hlen]
    have hget : size_name.get ⟨floorLog1024 (m + 1), hlen⟩ = sizeUnit (m + 1) := by
      unfold sizeUnit
      rw [List.getD_eq_getElem _ _ hlen, List.get_eq_getElem]
    rw [hget]
  · unfold sizeUnit
    set i := floorLog1024 (m + 1) with hidef
    interval_cases i <;> simp [size_name]
  · unfold sizeUnit
    set i := floorLog1024 (m + 1) with hidef
    interval_cases i <;> simp [size_name]

/-- C4 witness: the amended theorem applied at the concrete byte count
`1500`. -/
theorem format_size_positive_spec_witness :
    format_size (some 1500) =
      some ("(" ++ renderFloat2 (roundHalfEven2 (1500 * 100) (1024 ^ floorLog1024 1500)) ++ " " ++
        sizeUnit 1500 ++ ")") ∧
    (sizeUnit 1500 = "B" ∨ sizeUnit 1500 = "KB" ∨ sizeUnit 1500 = "MB" ∨ sizeUnit 1500 = "GB") ∧
    size_name.get? (floorLog1024 1500) = some (sizeUnit 1500) ∧
    strEndsWith ("(" ++ renderFloat2 (roundHalfEven2 (1500 * 100) (1024 ^ floorLog1024 1500)) ++
      " " ++ sizeUnit 1500 ++ ")") (sizeUnit 1500 ++ ")") :=
  format_size_positive_spec.2.2 1500 (by decide) (by decide)

/-! ### Claim C10 -/

/-- C10: `format_size` returns a string exactly on the positive inputs
whose magnitude index is at most 3: for `1 ≤ n < 1024 ^ 4` the
unit-table lookup is in bounds and a string is produced, while for
`n ≥ 1024 ^ 4` the computed index is at least 4, exceeding the 4-element
table, so the error branch of the lookup is taken. -/
theorem format_size_domain :
    (∀ n : Nat, 1 ≤ n → n < 1024 ^ 4 → (format_size (some n)).isSome) ∧
    (∀ n : Nat, 1024 ^ 4 ≤ n → 4 ≤ floorLog1024 n ∧ format_size (some n) = none) := by
  constructor
  · intro n h1 h2
    have hi4 : floorLog1024 n < 4 := floorLog1024Aux_lt le_rfl (by norm_num) h2
    obtain ⟨m, rfl⟩ : ∃ m, n = m + 1 := ⟨n - 1, by omega⟩
    have hred : format_size (some (m + 1)) =
        if h : floorLog1024 (m + 1) < size_name.length then
          some ("(" ++ renderFloat2 (roundHalfEven2 ((m + 1) * 100) (1024 ^ floorLog1024 (m + 1))) ++
            " " ++ size_name.get ⟨floorLog1024 (m + 1), h⟩ ++ ")")
        else none := rfl
    have hlen : floorLog1024 (m + 1) < size_name.length := by
      simpa [size_name] using hi4
    rw [hred, dif_pos hlen]
    rfl
  · intro n h4
    have hge : 4 ≤ floorLog1024 n := floorLog1024Aux_ge le_rfl h4
    refine ⟨hge, ?_⟩
    have h1 : (0:Nat) < 1024 ^ 4 := by norm_num
    obtain ⟨m, rfl⟩ : ∃ m, n = m + 1 := ⟨n - 1, by omega⟩
    have hred : format_size (some (m + 1)) =
        if h : floorLog1024 (m + 1) < size_name.length then
          some ("(" ++ renderFloat2 (roundHalfEven2 ((m + 1) * 100) (1024 ^ floorLog1024 (m + 1))) ++
            " " ++ size_name.get ⟨floorLog1024 (m + 1), h⟩ ++ ")")
        else none := rfl
    rw [hred, dif_neg]
    simp only [size_name, List.length_cons, List.length_nil]
    omega

/-- C10 witness: in-bounds at `5`, out of bounds at `1024 ^ 4`. -/
theorem format_size_domain_witness :
    (format_size (some 5)).isSome ∧
    (4 ≤ floorLog1024 (1024 ^ 4) ∧ format_size (some (1024 ^ 4)) = none) :=
  ⟨format_size_domain.1 5 (by decide) (by decide), format_size_domain.2 (1024 ^ 4) (by decide)⟩

/-! ### The escaper: join/flatMap correspondence and inversion -/

theorem data_foldl_append (L : List String) (acc : String) :
    (L.foldl (· ++ ·) acc).data = acc.data ++ (L.map String.data).flatten := by
  induction L generalizing acc with
  | nil => simp
  | cons s L ih =>
    simp only [List.foldl_cons, List.map_cons, List.flatten_cons]
    rw [ih, String.data_append, List.append_assoc]

theorem data_join (L : List String) : (String.join L).data = (L.map String.data).flatten := by
  have h : String.join L = L.foldl (· ++ ·) "" := rfl
  rw [h, data_foldl_append]
  rfl

theorem escape_markdown_v2_data (s : String) :
    (escape_markdown_v2 s).data = escList s.data := by
  unfold escape_markdown_v2 escList
  rw [data_join, List.map_map, List.flatMap_def]
  refine congrArg List.flatten (List.map_congr_left ?_)
  intro c _
  simp only [Function.comp_apply]
  split <;> rfl

theorem contains_backslash_false : escape_chars.data.contains '\\' = false := by decide

theorem unescape_cons_not_contained (c : Char) (l : List Char)
    (hhead : ∀ d ds, l = d :: ds → escape_chars.data.contains d = false) :
    unescapeMarkdownV2 (c :: l) = c :: unescapeMarkdownV2 l := by
  cases l with
  | nil => rfl
  | cons d ds =>
    have hd := hhead d ds rfl
    rw [unescapeMarkdownV2, if_neg]
    rintro ⟨h1, h2⟩
    rw [hd] at h2
    exact Bool.false_ne_true h2

theorem unescape_escList : ∀ l : List Char, unescapeMarkdownV2 (escList l) = l := by
  intro l
  induction l with
  | nil => rfl
  | cons c rest ih =>
    unfold escList
    rw [List.flatMap_cons]
    by_cases hc : escape_chars.data.contains c
    · rw [if_pos hc]
      show unescapeMarkdownV2 ('\\' :: c :: escList rest) = c :: rest
      rw [unescapeMarkdownV2, if_pos ⟨rfl, hc⟩, ih]
    · rw [if_neg hc]
      show unescapeMarkdownV2 (c :: escList rest) = c :: rest
      rw [unescape_cons_not_contained, ih]
      intro d ds hds
      cases rest with
      | nil => simp [escList] at hds
      | cons r rest2 =>
        unfold escList at hds
        rw [List.flatMap_cons] at hds
        by_cases hr : escape_chars.data.contains r
        · rw [if_pos hr] at hds
          cases hds
          exact contains_backslash_false
        · rw [if_neg hr] at hds
          cases hds
          simpa using hr

/-! ### Claim C7 -/

/-- C7: for every input string, the escaper's output is the in-order
per-character expansion in which each occurrence of a character from the
fixed punctuation set is prefixed by exactly one backslash and every
other character passes through unchanged; dropping one marker before each
set character recovers the input exactly, so no occurrence is escaped
more or less than once. -/
theorem escape_markdown_v2_spec (s : String) :
    (escape_markdown_v2 s).data =
      (s.data.flatMap fun c =>
        if escape_chars.data.contains c then ['\\', c] else [c]) ∧
    unescapeMarkdownV2 (escape_markdown_v2 s).data = s.data := by
  refine ⟨escape_markdown_v2_data s, ?_⟩
  rw [escape_markdown_v2_data s]
  exact unescape_escList s.data

/-! ### Splitting the callback token -/

theorem splitChar_ne_nil (sep : Char) : ∀ l : List Char, splitChar sep l ≠ [] := by
  intro l
  induction l with
  | nil => simp [splitChar]
  | cons c cs ih =>
    simp only [splitChar]
    split
    · simp
    · split
      · simp
      · simp

theorem splitChar_sep_cons (sep : Char) (rest : List Char) :
    splitChar sep (sep :: rest) = [] :: splitChar sep rest := by
  simp [splitChar]

theorem splitChar_append_sep (sep : Char) (a rest : List Char) (h : sep ∉ a) :
    splitChar sep (a ++ sep :: rest) = a :: splitChar sep rest := by
  induction a with
  | nil => simpa using splitChar_sep_cons sep rest
  | cons c a ih =>
    have hc : ¬ c = sep := fun h2 => h (h2 ▸ List.mem_cons_self c a)
    have hs : sep ∉ a := fun hm => h (List.mem_cons_of_mem _ hm)
    show splitChar sep (c :: (a ++ sep :: rest)) = (c :: a) :: splitChar sep rest
    simp only [splitChar, if_neg hc]
    rw [ih hs]

theorem splitChar_no_sep (sep : Char) (a : List Char) (h : sep ∉ a) :
    splitChar sep a = [a] := by
  induction a with
  | nil => rfl
  | cons c a ih =>
    have hc : ¬ c = sep := fun h2 => h (h2 ▸ List.mem_cons_self c a)
    have hs : sep ∉ a := fun hm => h (List.mem_cons_of_mem _ hm)
    simp only [splitChar, if_neg hc]
    rw [ih hs]

theorem pySplit_token (kind vid q : String) (hk : ':' ∉ kind.data)
    (hv : ':' ∉ vid.data) (hq : ':' ∉ q.data) :
    pySplit (kind ++ ":" ++ vid ++ ":" ++ q) ':' = [kind, vid, q] := by
  unfold pySplit
  have hdata : (kind ++ ":" ++ vid ++ ":" ++ q).data =
      kind.data ++ ':' :: (vid.data ++ ':' :: q.data) := by
    simp [String.data_append]
  rw [hdata, splitChar_append_sep _ _ _ hk, splitChar_append_sep _ _ _ hv,
    splitChar_no_sep _ _ hq]
  rfl

/-! ### Claim C9 -/

/-- C9: every token the Link Handler can produce —
`"<kind>:<video-id>:<quality-or-format-id>"` with kind `video` or `audio`
and colon-free id fields — is parsed by the Selection Handler's
`split(':')` back into exactly the three original fields. -/
theorem callback_token_roundtrip (kind vid q : String)
    (hkind : kind = "video" ∨ kind = "audio")
    (hv : ':' ∉ vid.data) (hq : ':' ∉ q.data) :
    pySplit (kind ++ ":" ++ vid ++ ":" ++ q) ':' = [kind, vid, q] := by
  have hk : ':' ∉ kind.data := by
    rcases hkind with h | h <;> rw [h] <;> decide
  exact pySplit_token kind vid q hk hv hq

/-- C9 witness: the round trip at the concrete token
`"video:abc123:720"`. -/
theorem callback_token_roundtrip_witness :
    pySplit ("video" ++ ":" ++ "abc123" ++ ":" ++ "720") ':' = ["video", "abc123", "720"] :=
  callback_token_roundtrip "video" "abc123" "720" (Or.inl rfl) (by decide) (by decide)

/-! ### Claim C2 -/

/-- C2: a `video:<id>:<H>` token (colon-free fields) resolves to the
selector `bestvideo[height<=H][ext=mp4]+bestaudio[ext=m4a]` with the two
fallback tiers `best[height<=H][ext=mp4]` and `best`, and a local path
ending in `.mp4`; an `audio:<id>:<fid>` token resolves to the format id
`<fid>` used directly and a path ending in `.m4a`. -/
theorem download_plan_spec (uid : Nat) (vid q : String)
    (hv : ':' ∉ vid.data) (hq : ':' ∉ q.data) :
    (download_button_callback_plan uid ("video:" ++ vid ++ ":" ++ q) =
      some (toString uid ++ "_" ++ vid ++ "." ++ "mp4",
        "https://www.youtube.com/watch?v=" ++ vid,
        "bestvideo[height<=" ++ q ++ "][ext=mp4]+bestaudio[ext=m4a]/best[height<=" ++ q ++
          "][ext=mp4]/best") ∧
      strEndsWith (toString uid ++ "_" ++ vid ++ "." ++ "mp4") ".mp4") ∧
    (download_button_callback_plan uid ("audio:" ++ vid ++ ":" ++ q) =
      some (toString uid ++ "_" ++ vid ++ "." ++ "m4a",
        "https://www.youtube.com/watch?v=" ++ vid, q) ∧
      strEndsWith (toString uid ++ "_" ++ vid ++ "." ++ "m4a") ".m4a") := by
  have hev : ("video:" ++ vid ++ ":" ++ q) = ("video" ++ ":" ++ vid ++ ":" ++ q) := rfl
  have hea : ("audio:" ++ vid ++ ":" ++ q) = ("audio" ++ ":" ++ vid ++ ":" ++ q) := rfl
  constructor
  · constructor
    · unfold download_button_callback_plan
      rw [hev, pySplit_token "video" vid q (by decide) hv hq]
      rfl
    · have h4 : (".mp4" : String) = "." ++ "mp4" := rfl
      rw [h4]
      exact strEndsWith_unit _ _ _
  · constructor
    · unfold download_button_callback_plan
      rw [hea, pySplit_token "audio" vid q (by decide) hv hq]
      rfl
    · have h4 : (".m4a" : String) = "." ++ "m4a" := rfl
      rw [h4]
      exact strEndsWith_unit _ _ _

/-- C2 witness: the plan at user 42 for tokens `video:abc123:720` and
`audio:abc123:140`, with the fields instantiated concretely. -/
theorem download_plan_spec_witness :
    (download_button_callback_plan 42 ("video:" ++ "abc123" ++ ":" ++ "720") =
      some (toString 42 ++ "_" ++ "abc123" ++ "." ++ "mp4",
        "https://www.youtube.com/watch?v=" ++ "abc123",
        "bestvideo[height<=" ++ "720" ++ "][ext=mp4]+bestaudio[ext=m4a]/best[height<=" ++ "720" ++
          "][ext=mp4]/best") ∧
      strEndsWith (toString 42 ++ "_" ++ "abc123" ++ "." ++ "mp4") ".mp4") ∧
    (download_button_callback_plan 42 ("audio:" ++ "abc123" ++ ":" ++ "720") =
      some (toString 42 ++ "_" ++ "abc123" ++ "." ++ "m4a",
        "https://www.youtube.com/watch?v=" ++ "abc123", "720") ∧
      strEndsWith (toString 42 ++ "_" ++ "abc123" ++ "." ++ "m4a") ".m4a") :=
  download_plan_spec 42 "abc123" "720" (by decide) (by decide)

/-! ### Claim C1 -/

theorem not_mem_cleanup (fs : List String) (p : String) : p ∉ cleanup fs p := by
  unfold cleanup
  split
  · simp [List.mem_filter]
  · assumption

/-- C1: every Selection Handler run that reaches the download attempt —
whatever the download produced on disk and whether the download, the
upload, or nothing failed — terminates with the computed local file path
absent, because the `finally` cleanup removes it when present on every
exit path. -/
theorem selection_cleanup_spec (uid : Nat) (data : String) (p u f : String)
    (_hplan : download_button_callback_plan uid data = some (p, u, f)) :
    ∀ (download : List String → List String × Bool) (uploadOk : Bool) (fs0 : List String),
      p ∉ (selectionRun download uploadOk p fs0).1 := by
  intro download uploadOk fs0
  exact not_mem_cleanup _ _

/-- C1 witness: a concrete run for token `video:abc:720` by user 7, whose
download creates the file and whose upload succeeds. -/
theorem selection_cleanup_spec_witness :
    "7_abc.mp4" ∉ (selectionRun (fun fs => ("7_abc.mp4" :: fs, true)) true "7_abc.mp4" []).1 :=
  selection_cleanup_spec 7 "video:abc:720" "7_abc.mp4"
    "https://www.youtube.com/watch?v=abc"
    "bestvideo[height<=720][ext=mp4]+bestaudio[ext=m4a]/best[height<=720][ext=mp4]/best"
    (by decide) (fun fs => ("7_abc.mp4" :: fs, true)) true []

/-! ### Claim C5 -/

theorem url_handler_ok_eq (info : InfoDict) :
    url_handler (.ok info) =
      (match keyboard info.id info.formats with
       | none => ⟨some (info.title.getD "No Title"), [.editPlaceholder msgUnexpected]⟩
       | some kb =>
         if kb.isEmpty then
           ⟨some (info.title.getD "No Title"), [.editPlaceholder msgNoFormats]⟩
         else if pyTruthy info.thumbnail then
           ⟨some (info.title.getD "No Title"),
             [.deletePlaceholder, .sendPhoto (info.thumbnail.getD "")
               ("*" ++ escape_markdown_v2 (info.title.getD "No Title") ++ "*") kb]⟩
         else
           ⟨some (info.title.getD "No Title"),
             [.deletePlaceholder,
               .sendText ("*" ++ escape_markdown_v2 (info.title.getD "No Title") ++ "*") kb]⟩) :=
  rfl

/-- C5 counterexample: on a link with no presentable formats the handler
edits the placeholder to the no-formats message and sends nothing — but
the resolved title HAS been persisted into session state (`video_title`
is written on line 62, before the button check), contradicting the
claim's "without persisting the resolved title". -/
theorem url_handler_persists_title_without_buttons :
    (url_handler (.ok infoNoButtons)).actions = [.editPlaceholder msgNoFormats] ∧
    (url_handler (.ok infoNoButtons)).video_title = some "T" :=
  ⟨by decide, by decide⟩

/-- C5 (amended claim): on successful extraction the resolved title is
persisted into session state unconditionally, before the button check; if
no buttons were produced the handler then edits the placeholder to the
no-formats message and stops without sending a button grid, and otherwise
it deletes the placeholder and sends the captioned grid. -/
theorem url_handler_no_buttons (info : InfoDict) :
    (url_handler (.ok info)).video_title = some (info.title.getD "No Title") ∧
    (keyboard info.id info.formats = some [] →
      (url_handler (.ok info)).actions = [.editPlaceholder msgNoFormats]) ∧
    (∀ kb, keyboard info.id info.formats = some kb → kb ≠ [] →
      (url_handler (.ok info)).actions =
        [.deletePlaceholder,
          if pyTruthy info.thumbnail then
            .sendPhoto (info.thumbnail.getD "")
              ("*" ++ escape_markdown_v2 (info.title.getD "No Title") ++ "*") kb
          else
            .sendText ("*" ++ escape_markdown_v2 (info.title.getD "No Title") ++ "*") kb]) := by
  rw [url_handler_ok_eq]
  refine ⟨?_, ?_, ?_⟩
  · cases hk : keyboard info.id info.formats with
    | none => rfl
    | some kb =>
      simp only []
      split
      · rfl
      · split <;> rfl
  · intro hk
    rw [hk]
    rfl
  · intro kb hk hne
    rw [hk]
    simp only [List.isEmpty_iff, hne, if_false]
    split <;> rfl

/-- C5 witness: the amended theorem applied to the concrete no-buttons
extraction result. -/
theorem url_handler_no_buttons_witness :
    (url_handler (.ok infoNoButtons)).video_title = some "T" ∧
    (url_handler (.ok infoNoButtons)).actions = [.editPlaceholder msgNoFormats] :=
  ⟨(url_handler_no_buttons infoNoButtons).1,
    (url_handler_no_buttons infoNoButtons).2.1 (by decide)⟩

/-! ### Claim C6 -/

/-- C6: every extraction failure results in an edit of the placeholder
(never a sent message); a structured `DownloadError` is classified by
message content into exactly three causes — unavailable/private, invalid
URL, everything else — with three pairwise distinct messages, and an
unknown failure maps to a fourth, distinct generic message. -/
theorem url_handler_failure_spec (e : String) :
    ((url_handler (.downloadError e)).actions =
        [.editPlaceholder (classifyDownloadError e)] ∧
      (url_handler (.downloadError e)).video_title = none) ∧
    (url_handler .genericError).actions = [.editPlaceholder msgUnexpected] ∧
    ((strContains (pyLower e) "video unavailable" ||
        strContains (pyLower e) "private video") = true →
      classifyDownloadError e = msgUnavailable) ∧
    ((strContains (pyLower e) "video unavailable" ||
        strContains (pyLower e) "private video") = false →
      strContains (pyLower e) "is not a valid url" = true →
      classifyDownloadError e = msgInvalidUrl) ∧
    ((strContains (pyLower e) "video unavailable" ||
        strContains (pyLower e) "private video") = false →
      strContains (pyLower e) "is not a valid url" = false →
      classifyDownloadError e = msgOtherDl) ∧
    (msgUnavailable ≠ msgInvalidUrl ∧ msgUnavailable ≠ msgOtherDl ∧
      msgInvalidUrl ≠ msgOtherDl ∧ msgUnexpected ≠ msgUnavailable ∧
      msgUnexpected ≠ msgInvalidUrl ∧ msgUnexpected ≠ msgOtherDl) := by
  refine ⟨⟨rfl, rfl⟩, rfl, ?_, ?_, ?_, by decide, by decide, by decide, by decide, by decide,
    by decide⟩
  · intro h1
    unfold classifyDownloadError
    rw [if_pos h1]
  · intro h1 h2
    unfold classifyDownloadError
    rw [if_neg (by simp [h1]), if_pos h2]
  · intro h1 h2
    unfold classifyDownloadError
    rw [if_neg (by simp [h1]), if_neg (by simp [h2])]

/-- C6 witness: the classifier branches exercised at a concrete
private-video error message. -/
theorem url_handler_failure_spec_witness :
    classifyDownloadError "ERROR: Private video. Sign in if you have access" = msgUnavailable :=
  (url_handler_failure_spec "ERROR: Private video. Sign in if you have access").2.2.1 (by decide)

theorem find?_eq_some_split {α : Type} (p : α → Bool) :
    ∀ (l : List α) (a : α), l.find? p = some a →
      ∃ s t, l = s ++ a :: t ∧ ∀ b ∈ s, p b = false := by
  intro l
  induction l with
  | nil => intro a h; simp [List.find?] at h
  | cons x l ih =>
    intro a h
    by_cases hp : p x
    · rw [List.find?_cons_of_pos _ hp] at h
      cases h
      exact ⟨[], l, rfl, by simp⟩
    · rw [List.find?_cons_of_neg _ hp] at h
      obtain ⟨s, t, rfl, hs⟩ := ih a h
      refine ⟨x :: s, t, rfl, ?_⟩
      intro b hb
      rcases List.mem_cons.mp hb with rfl | hb
      · simpa using hp
      · exact hs b hb

theorem mem_insertDesc (f x : FormatDescriptor) :
    ∀ l, x ∈ insertDesc f l ↔ x = f ∨ x ∈ l := by
  intro l
  induction l with
  | nil => simp [insertDesc]
  | cons g gs ih =>
    unfold insertDesc
    split
    · simp only [List.mem_cons, ih]
      tauto
    · simp only [List.mem_cons]

theorem sorted_insertDesc (f : FormatDescriptor) (l : List FormatDescriptor)
    (h : l.Pairwise (fun a b => heightKey b ≤ heightKey a)) :
    (insertDesc f l).Pairwise (fun a b => heightKey b ≤ heightKey a) := by
  induction l with
  | nil => simp [insertDesc]
  | cons g gs ih =>
    rw [List.pairwise_cons] at h
    obtain ⟨hg, hgs⟩ := h
    unfold insertDesc
    split
    · rename_i hlt
      rw [List.pairwise_cons]
      refine ⟨?_, ih hgs⟩
      intro x hx
      rcases (mem_insertDesc f x gs).mp hx with rfl | hx
      · exact Nat.le_of_lt hlt
      · exact hg x hx
    · rename_i hnlt
      rw [List.pairwise_cons]
      refine ⟨?_, List.pairwise_cons.mpr ⟨hg, hgs⟩⟩
      intro x hx
      rcases List.mem_cons.mp hx with rfl | hx
      · omega
      · exact le_trans (hg x hx) (by omega)

theorem sortDesc_sorted : ∀ l, (sortDesc l).Pairwise (fun a b => heightKey b ≤ heightKey a) := by
  intro l
  induction l with
  | nil => exact List.Pairwise.nil
  | cons f fs ih => exact sorted_insertDesc f _ ih

theorem mem_sortDesc (x : FormatDescriptor) : ∀ l, x ∈ sortDesc l ↔ x ∈ l := by
  intro l
  induction l with
  | nil => simp [sortDesc]
  | cons f fs ih =>
    unfold sortDesc
    rw [mem_insertDesc, ih, List.mem_cons]

theorem dedupRows_cons_none (g : FormatDescriptor) (l : List FormatDescriptor)
    (seen : List Nat) (hg : g.height = none) :
    dedupRows (g :: l) seen = dedupRows l seen := by
  simp only [dedupRows, hg]

theorem dedupRows_cons_some (g : FormatDescriptor) (l : List FormatDescriptor)
    (seen : List Nat) (k : Nat) (hg : g.height = some k) :
    dedupRows (g :: l) seen =
      if k ≠ 0 ∧ k ∉ seen then (k, g) :: dedupRows l (k :: seen)
      else dedupRows l seen := by
  simp only [dedupRows, hg]

theorem dedupRows_mem_props :
    ∀ (l : List FormatDescriptor) (seen : List Nat) (h : Nat) (f : FormatDescriptor),
      (h, f) ∈ dedupRows l seen → h ∉ seen ∧ h ≠ 0 ∧ f.height = some h := by
  intro l
  induction l with
  | nil => intro seen h f hmem; simp [dedupRows] at hmem
  | cons g l ih =>
    intro seen h f hmem
    cases hg : g.height with
    | none =>
      rw [dedupRows_cons_none g l seen hg] at hmem
      exact ih _ _ _ hmem
    | some k =>
      rw [dedupRows_cons_some g l seen k hg] at hmem
      by_cases hcond : k ≠ 0 ∧ k ∉ seen
      · rw [if_pos hcond] at hmem
        rcases List.mem_cons.mp hmem with heq | hmem
        · rw [Prod.mk.injEq] at heq
          obtain ⟨rfl, rfl⟩ := heq
          exact ⟨hcond.2, hcond.1, hg⟩
        · have hp := ih _ _ _ hmem
          exact ⟨fun hh => hp.1 (List.mem_cons_of_mem _ hh), hp.2⟩
      · rw [if_neg hcond] at hmem
        exact ih _ _ _ hmem

theorem dedupRows_heights_sublist :
    ∀ (l : List FormatDescriptor) (seen : List Nat),
      ((dedupRows l seen).map Prod.fst).Sublist (l.map heightKey) := by
  intro l
  induction l with
  | nil => intro seen; simp [dedupRows]
  | cons g l ih =>
    intro seen
    cases hg : g.height with
    | none =>
      rw [dedupRows_cons_none g l seen hg]
      exact (ih seen).cons _
    | some k =>
      rw [dedupRows_cons_some g l seen k hg]
      by_cases hcond : k ≠ 0 ∧ k ∉ seen
      · rw [if_pos hcond]
        simp only [List.map_cons]
        rw [show heightKey g = k from by simp [heightKey, hg]]
        exact (ih (k :: seen)).cons₂ _
      · rw [if_neg hcond]
        exact (ih seen).cons _

theorem dedupRows_heights_nodup :
    ∀ (l : List FormatDescriptor) (seen : List Nat),
      ((dedupRows l seen).map Prod.fst).Nodup := by
  intro l
  induction l with
  | nil => intro seen; simp [dedupRows]
  | cons g l ih =>
    intro seen
    cases hg : g.height with
    | none =>
      rw [dedupRows_cons_none g l seen hg]
      exact ih seen
    | some k =>
      rw [dedupRows_cons_some g l seen k hg]
      by_cases hcond : k ≠ 0 ∧ k ∉ seen
      · rw [if_pos hcond]
        simp only [List.map_cons, List.nodup_cons]
        refine ⟨?_, ih _⟩
        intro hk
        obtain ⟨pr, hmem, heq⟩ := List.mem_map.mp hk
        have hpr : pr = (k, pr.2) := by
          rw [← heq]
        rw [hpr] at hmem
        have := dedupRows_mem_props l (k :: seen) k pr.2 hmem
        exact this.1 (List.mem_cons_self _ _)
      · rw [if_neg hcond]
        exact ih seen

theorem dedupRows_first_occurrence :
    ∀ (l : List FormatDescriptor) (seen : List Nat) (h : Nat) (f : FormatDescriptor),
      (h, f) ∈ dedupRows l seen →
      l.find? (fun g => g.height == some h) = some f := by
  intro l
  induction l with
  | nil => intro seen h f hmem; simp [dedupRows] at hmem
  | cons g l ih =>
    intro seen h f hmem
    cases hg : g.height with
    | none =>
      rw [dedupRows_cons_none g l seen hg] at hmem
      rw [List.find?_cons_of_neg, ih _ _ _ hmem]
      simp [hg]
    | some k =>
      rw [dedupRows_cons_some g l seen k hg] at hmem
      by_cases hcond : k ≠ 0 ∧ k ∉ seen
      · rw [if_pos hcond] at hmem
        rcases List.mem_cons.mp hmem with heq | hmem
        · rw [Prod.mk.injEq] at heq
          obtain ⟨rfl, rfl⟩ := heq
          rw [List.find?_cons_of_pos]
          simp [hg]
        · have hprops := dedupRows_mem_props l (k :: seen) h f hmem
          have hne : k ≠ h := fun he => hprops.1 (he ▸ List.mem_cons_self k seen)
          rw [List.find?_cons_of_neg, ih _ _ _ hmem]
          simp [hg, hne]
      · rw [if_neg hcond] at hmem
        have hprops := dedupRows_mem_props l seen h f hmem
        have hne : k ≠ h := by
          by_cases hk0 : k = 0
          · intro he
            exact hprops.2.1 (by omega)
          · have hkseen : k ∈ seen := by tauto
            exact fun he => hprops.1 (he ▸ hkseen)
        rw [List.find?_cons_of_neg, ih _ _ _ hmem]
        simp [hg, hne]

/-- C3: for every format list, the video-button selection contains at
most one entry per distinct height, the heights appear in strictly
descending order, and the format chosen for a height is the first format
carrying that height in the height-descending stable ordering of the
formats passing the video filter. -/
theorem videoSelections_spec (formats : List FormatDescriptor) :
    ((videoSelections formats).map Prod.fst).Nodup ∧
    ((videoSelections formats).map Prod.fst).Pairwise (fun a b => b < a) ∧
    ∀ h f, (h, f) ∈ videoSelections formats →
      f.height = some h ∧ f ∈ formats.filter videoFilter ∧
      (sortDesc (formats.filter videoFilter)).find? (fun g => g.height == some h) = some f := by
  unfold videoSelections
  have hnodup := dedupRows_heights_nodup (sortDesc (formats.filter videoFilter)) []
  refine ⟨hnodup, ?_, ?_⟩
  · have hsorted := sortDesc_sorted (formats.filter videoFilter)
    have hmap : ((sortDesc (formats.filter videoFilter)).map heightKey).Pairwise
        (fun a b => b ≤ a) := List.pairwise_map.mpr hsorted
    have hsub := dedupRows_heights_sublist (sortDesc (formats.filter videoFilter)) []
    have hle := List.Pairwise.sublist hsub hmap
    exact (hle.and hnodup).imp fun hab => lt_of_le_of_ne hab.1 fun he => hab.2 he.symm
  · intro h f hmem
    have hfind := dedupRows_first_occurrence _ _ _ _ hmem
    have hprops := dedupRows_mem_props _ _ _ _ hmem
    have hmem2 : f ∈ sortDesc (formats.filter videoFilter) :=
      List.mem_of_find?_eq_some hfind
    exact ⟨hprops.2.2, (mem_sortDesc f _).mp hmem2, hfind⟩

/-- C8: the Link Handler selects at most one audio variant — scanning the
formats in reverse-declared order it picks the first satisfying the audio
predicate (audio codec not `'none'`, video codec `'none'`, container in
the m4a/webm/mp3 allow-list) — and renders exactly one audio button for
it, none when no format matches. -/
theorem best_audio_spec (formats : List FormatDescriptor) :
    (best_audio formats = none → ∀ f ∈ formats, audioPred f = false) ∧
    (∀ f, best_audio formats = some f →
      audioPred f = true ∧
      ∃ s t, formats.reverse = s ++ f :: t ∧ ∀ g ∈ s, audioPred g = false) ∧
    (∀ vid rows, audioRows vid formats = some rows →
      rows.length = if (best_audio formats).isSome then 1 else 0) := by
  refine ⟨?_, ?_, ?_⟩
  · intro h f hf
    have hall := List.find?_eq_none.mp (by simpa [best_audio] using h)
    simpa using hall f hf
  · intro f h
    have h2 : formats.reverse.find? audioPred = some f := h
    exact ⟨List.find?_some h2, find?_eq_some_split audioPred formats.reverse f h2⟩
  · intro vid rows h
    unfold audioRows at h
    cases hb : best_audio formats with
    | none =>
      rw [hb] at h
      cases h
      simp [hb]
    | some f =>
      rw [hb] at h
      have h2 : Option.map (fun b => [b]) (audioButton vid f) = some rows := h
      cases hab : audioButton vid f with
      | none =>
        rw [hab] at h2
        cases h2
      | some b =>
        rw [hab] at h2
        cases h2
        simp [hb]

/-- C3 witness: a format list with a duplicated 720p height; the button
set is duplicate-free and the 720p button comes from the first such
format. -/
theorem videoSelections_spec_witness :
    ((videoSelections fmtsSample).map Prod.fst).Nodup ∧
    (fmtV22.height = some 720 ∧ fmtV22 ∈ fmtsSample.filter videoFilter ∧
      (sortDesc (fmtsSample.filter videoFilter)).find?
        (fun g => g.height == some 720) = some fmtV22) :=
  ⟨(videoSelections_spec fmtsSample).1,
    (videoSelections_spec fmtsSample).2.2 720 fmtV22 (by decide)⟩

/-- C8 witness: on the sample list the audio entry is picked as first
match of the reverse scan. -/
theorem best_audio_spec_witness :
    audioPred fmtA140 = true ∧
    ∃ s t, fmtsSample.reverse = s ++ fmtA140 :: t ∧ ∀ g ∈ s, audioPred g = false :=
  (best_audio_spec fmtsSample).2.1 fmtA140 (by decide)
